import Mathlib

/-!
Verification of the recursive search-and-replace utility (replace.py).

The development shallowly embeds the program: Python strings become
`List Char` / `String`, the file system and per-file I/O outcomes become an
explicit `World` value, console output becomes a list of `Event`s, and the
uncaught-exception / `sys.exit` behaviour of the process becomes an
`Outcome`.  The theorems at the end settle the specification claims.
-/

/-! ## Python string semantics: `str.count` and `str.replace`

Both scan left to right and treat matches as non-overlapping.  The scanner
is embedded structurally: `skip` counts positions that are still inside the
most recent match and therefore cannot start a new one. -/

/-- Left-to-right non-overlapping occurrence counting, as `str.count` does
for a non-empty needle.  `skip > 0` means the scanner is still inside a
previous match. -/
def countSkip (old : List Char) : List Char → Nat → Nat
  | [], _ => 0
  | _ :: s, k + 1 => countSkip old s k
  | c :: s, 0 =>
    if old.isPrefixOf (c :: s) then 1 + countSkip old s (old.length - 1)
    else countSkip old s 0

/-- Left-to-right non-overlapping replacement, as `str.replace` does for a
non-empty needle. -/
def replaceSkip (old new : List Char) : List Char → Nat → List Char
  | [], _ => []
  | _ :: s, k + 1 => replaceSkip old new s k
  | c :: s, 0 =>
    if old.isPrefixOf (c :: s) then new ++ replaceSkip old new s (old.length - 1)
    else c :: replaceSkip old new s 0

/-- Python `contents.count(old)`: for an empty needle Python counts
`len + 1` occurrences. -/
def pyCount (s old : List Char) : Nat :=
  if old = [] then s.length + 1 else countSkip old s 0

/-- Python `contents.replace(old, new)`: for an empty needle Python inserts
`new` at every position boundary. -/
def pyReplace (s old new : List Char) : List Char :=
  if old = [] then new ++ s.flatMap (fun c => c :: new)
  else replaceSkip old new s 0

/-- String-level wrapper of `pyCount`. -/
def pyCountS (s old : String) : Nat := pyCount s.toList old.toList

/-- String-level wrapper of `pyReplace`. -/
def pyReplaceS (s old new : String) : String :=
  String.mk (pyReplace s.toList old.toList new.toList)

/-- Python substring membership `sub in s`: some contiguous run of `s`
equals `sub` (always true for the empty string). -/
def hasSub (sub : List Char) : List Char → Bool
  | [] => sub.isEmpty
  | c :: t => sub.isPrefixOf (c :: t) || hasSub sub t

/-- String-level wrapper of `hasSub`. -/
def hasSubS (sub s : String) : Bool := hasSub sub.toList s.toList

/-! ## ANSI colors and messages (replace.py lines 12-23 and the fatal
messages of main) -/

/-- ANSI reset, `NORMAL` in the source. -/
def ansiNormal : String := "\x1b[0m"

/-- ANSI red. -/
def ansiRed : String := "\x1b[31m"

/-- ANSI green. -/
def ansiGreen : String := "\x1b[32m"

/-- The `green(...)` highlight applied to each match inside a reported
line. -/
def greenStr (s : String) : String := ansiGreen ++ s ++ ansiNormal

/-- Message of the `sys.exit` taken when the current working directory is
invalid (line 44). -/
def cwdInvalidMsg (cwd : String) : String :=
  "Current working directory " ++ cwd ++ " is invalid."

/-- Message of the `sys.exit` taken when the resolved root is not a
directory (line 70). -/
def notADirMsg (d : String) : String :=
  ansiRed ++ "Path is not a directory: " ++ d ++ ansiNormal

/-- The uncaught exception raised at line 83: `pathlib.Path` has no
`endswith` method, so evaluating `path.endswith("." + args.file_type)`
raises an AttributeError whenever `args.file_type` is truthy. -/
def attrErrMsg : String :=
  "AttributeError: PosixPath object has no attribute endswith"

/-! ## Observable run events

One constructor per print statement or per-file I/O action of main.
`openRead` marks the `open(path, "r")` call; `writeAttempt` marks the
`open(path, "w")` call together with the content written. -/

/-- Console output and file I/O trace entries of a run. -/
inductive Event where
  | warnOldNew
  | searchingUnder (root : String)
  | importWarn
  | skip (p : String)
  | searching (p : String)
  | openRead (p : String)
  | readFail (p : String) (msg : String)
  | decodeFail (p : String)
  | found (count : Nat) (p : String)
  | matchLine (lineNo : Nat) (line : String)
  | writeAttempt (p : String) (content : String)
  | writeFail (p : String) (msg : String)
  | modifiedMsg (p : String)
  | blank
  | summary (searched occ : Nat) (replaced : Bool)
  | failuresLine (n : Nat)
deriving DecidableEq

/-- Outcome of a failed-or-successful read of one file: `io` is an IOError
raised by `open`/`read`, `decode` a UnicodeDecodeError raised while
decoding. -/
inductive ReadErr where
  | io (msg : String)
  | decode
deriving DecidableEq

/-- The three counters accumulated by main (lines 65-67). -/
structure Stats where
  searched : Nat
  occurrences : Nat
  failures : Nat
deriving DecidableEq

/-- The all-zero initial counters. -/
def stats0 : Stats := ⟨0, 0, 0⟩

/-- Componentwise addition of counters. -/
def Stats.add (a b : Stats) : Stats :=
  ⟨a.searched + b.searched, a.occurrences + b.occurrences, a.failures + b.failures⟩

/-- How the process terminates: normal completion (exit status 0), a
`sys.exit` with a message (nonzero status), or an uncaught exception
(nonzero status). -/
inductive Outcome where
  | completed
  | exited (msg : String)
  | crashed (msg : String)
deriving DecidableEq

/-! ## The world: everything the run observes from the environment -/

/-- One ancestor directory inspected by `gitignore` (replace.py lines
34-38): whether it holds a `.gitignore` file, whether it holds a `.git`
marker, and what `gitignore_parser.parse_gitignore` would return there. -/
structure AncestorDir where
  hasGitignoreFile : Bool
  hasGitMarker : Bool
  parseResult : Except String (String → Bool)

/-- Environment of the `gitignore` function: whether the
`gitignore_parser` import succeeds, and the ancestor chain
`(root / "foo").parents` from `root` upward. -/
structure GitignoreEnv where
  importOk : Bool
  ancestors : List AncestorDir

instance {ε α : Type} [DecidableEq ε] [DecidableEq α] : DecidableEq (Except ε α) :=
  fun x y =>
    match x, y with
    | Except.ok a, Except.ok b =>
      if h : a = b then isTrue (h ▸ rfl) else isFalse (fun hh => h (Except.ok.inj hh))
    | Except.error a, Except.error b =>
      if h : a = b then isTrue (h ▸ rfl) else isFalse (fun hh => h (Except.error.inj hh))
    | Except.ok _, Except.error _ => isFalse (fun hh => Except.noConfusion hh)
    | Except.error _, Except.ok _ => isFalse (fun hh => Except.noConfusion hh)

/-- One regular file as the walk yields it, with the outcome the world has
in store for reading and (if attempted) writing it. -/
structure FileEntry where
  name : String
  readResult : Except ReadErr String
  writeResult : Except String Unit
deriving DecidableEq

/-- One `(dirpath, filenames)` pair as yielded by `root.walk()`; `dir` is
the directory path relative to the root (`""` for the root itself). The
unused `dirnames` component is dropped. -/
structure DirEntry where
  dir : String
  files : List FileEntry
deriving DecidableEq

/-- The full environment of one run. -/
structure World where
  cwd : String
  cwdValid : Bool
  rootStr : String
  rootIsDir : Bool
  gitEnv : GitignoreEnv
  walk : List DirEntry

/-- Command line arguments after argparse (replace.py lines 46-59). -/
structure Args where
  dir : String
  file_type : String
  quiet : Bool
  verbose : Bool
  old : String
  new : Option String

/-! ## The gitignore loader (replace.py lines 26-39) -/

/-- The upward loop of `gitignore`: at each ancestor, a `.gitignore` file
is parsed and its result returned immediately (a parse exception
propagates, since only the import is guarded by try/except); otherwise a
`.git` marker stops the search.  Falling off the end returns the
always-false predicate. -/
def gitignoreLoop : List AncestorDir → Except String (String → Bool)
  | [] => Except.ok (fun _ => false)
  | d :: rest =>
    if d.hasGitignoreFile then d.parseResult
    else if d.hasGitMarker then Except.ok (fun _ => false)
    else gitignoreLoop rest

/-- The function `gitignore(root)`: if the `gitignore_parser` import fails, print a
warning and return the always-false predicate; otherwise run the ancestor
loop.  Returns the printed warnings together with the predicate or the
propagated exception. -/
def gitignore (env : GitignoreEnv) : List Event × Except String (String → Bool) :=
  if env.importOk then ([], gitignoreLoop env.ancestors)
  else ([Event.importWarn], Except.ok (fun _ => false))

/-! ## Per-file search/replace (replace.py lines 76-123) -/

/-- The path `subdir / file` relative to the root: the `short_path` of the source. -/
def joinRel (d name : String) : String :=
  if d = "" then name else d ++ "/" ++ name

/-- Python `contents.split("\n")`. -/
def splitNl : List Char → List (List Char)
  | [] => [[]]
  | c :: s =>
    match splitNl s with
    | [] => [[]]
    | h :: t => if c = '\n' then [] :: h :: t else (c :: h) :: t

/-- String-level wrapper of `splitNl`. -/
def splitNlS (s : String) : List String := (splitNl s.toList).map String.mk

/-- The per-line match report (lines 108-111): for every 1-based line of
the content containing the search string, one output line with the matches
highlighted in green. -/
def matchLines (old contents : String) : List Event :=
  (List.zip (List.range' 1 (splitNlS contents).length) (splitNlS contents)).filterMap
    fun p =>
      if hasSub old.toList p.2.toList then
        some (Event.matchLine p.1 (pyReplaceS p.2 old (greenStr old)))
      else none

/-- The body of the inner file loop (lines 77-123) for one file: filters
(the ignore predicate, then the suffix filter whose attribute access
raises), the guarded read, counting, reporting and the guarded write.
Returns the updated counters, the events of this file, and the uncaught
exception if one was raised. -/
def processFile (args : Args) (newEff : Option String) (pred : String → Bool)
    (dirRel : String) (fe : FileEntry) (st : Stats) :
    Stats × List Event × Option String :=
  let short := joinRel dirRel fe.name
  if pred short then
    (st, if args.verbose then [Event.skip short] else [], none)
  else if args.file_type ≠ "" then
    (st, [], some attrErrMsg)
  else
    let sEvs := if args.verbose then [Event.searching short] else []
    match fe.readResult with
    | Except.error (ReadErr.io msg) =>
        ({ st with failures := st.failures + 1 },
         sEvs ++ [Event.openRead short, Event.readFail short msg], none)
    | Except.error ReadErr.decode =>
        ({ st with failures := st.failures + 1 },
         sEvs ++ [Event.openRead short, Event.decodeFail short], none)
    | Except.ok contents =>
        let count := pyCountS contents args.old
        let st1 : Stats :=
          { st with searched := st.searched + 1, occurrences := st.occurrences + count }
        if count ≠ 0 then
          let lineEvs := if args.quiet then [] else matchLines args.old contents
          let headEvs := sEvs ++ [Event.openRead short, Event.found count short] ++ lineEvs
          match newEff with
          | none => (st1, headEvs ++ [Event.blank], none)
          | some n =>
            let modified := pyReplaceS contents args.old n
            match fe.writeResult with
            | Except.ok _ =>
                (st1, headEvs ++ [Event.writeAttempt short modified,
                                  Event.modifiedMsg short, Event.blank], none)
            | Except.error m =>
                ({ st1 with failures := st1.failures + 1 },
                 headEvs ++ [Event.writeAttempt short modified,
                             Event.writeFail short m, Event.blank], none)
        else (st1, sEvs ++ [Event.openRead short], none)

/-! ## Sorted traversal (replace.py line 75-76) -/

/-- Split a character list at every occurrence of a separator character;
always returns at least one (possibly empty) piece. -/
def splitSep (sep : Char) : List Char → List (List Char)
  | [] => [[]]
  | c :: s =>
    match splitSep sep s with
    | [] => [[]]
    | h :: t => if c = sep then [] :: h :: t else (c :: h) :: t

/-- Rejoin the pieces produced by `splitSep` with the separator; the
inverse of `splitSep`. -/
def joinSep (sep : Char) : List (List Char) → List Char
  | [] => []
  | [h] => h
  | h :: h2 :: t => h ++ sep :: joinSep sep (h2 :: t)

/-- The parts tuple of a root-relative path, as `pathlib.PurePath.parts`
yields it relative to the root: the empty path (the root itself) has no
parts, otherwise the components between the `/` separators. -/
def pathParts (s : String) : List String :=
  if s = "" then [] else (splitSep '/' s.toList).map String.mk

/-- Ordering used by `sorted(root.walk())`: walk triples are compared by
their first component, the directory path.  `pathlib.PurePath` ordering
compares the tuple of path components lexicographically (so `a/c` sorts
before `a.b`, although `"a.b" < "a/c"` as strings); the remaining triple
components are never reached because directory paths are distinct. -/
def entLE (a b : DirEntry) : Prop := pathParts a.dir ≤ pathParts b.dir

/-- Ordering used by `sorted(files)`. -/
def fileLE (a b : FileEntry) : Prop := a.name ≤ b.name

instance : DecidableRel entLE :=
  fun a b => inferInstanceAs (Decidable (pathParts a.dir ≤ pathParts b.dir))

instance : DecidableRel fileLE := fun a b => inferInstanceAs (Decidable (a.name ≤ b.name))

instance : IsTotal DirEntry entLE := ⟨fun a b => le_total (pathParts a.dir) (pathParts b.dir)⟩

instance : IsTrans DirEntry entLE := ⟨fun _ _ _ h1 h2 => le_trans h1 h2⟩

instance : IsTotal FileEntry fileLE := ⟨fun a b => le_total a.name b.name⟩

instance : IsTrans FileEntry fileLE := ⟨fun _ _ _ h1 h2 => le_trans h1 h2⟩

/-- The sort `sorted(root.walk())` of line 75. -/
def sortEntries (l : List DirEntry) : List DirEntry := l.insertionSort entLE

/-- The sort `sorted(files)` of line 76. -/
def sortFiles (l : List FileEntry) : List FileEntry := l.insertionSort fileLE

/-- A directory entry with its file list brought into canonical (sorted)
order; two walk enumerations of the same tree agree up to permutation
after this normalisation. -/
def normEntry (e : DirEntry) : DirEntry := ⟨e.dir, sortFiles e.files⟩

/-- The visitation order of the two nested loops: directories sorted by
path, files sorted by name within each directory, each file identified by
its root-relative path. -/
def visitOrder (walk : List DirEntry) : List String :=
  ((sortEntries walk).map fun e =>
    (sortFiles e.files).map fun f => joinRel e.dir f.name).flatten

/-- The files of a list of walk entries, visited files-sorted within each
entry, each paired with its root-relative path. -/
def filesOfEntries (entries : List DirEntry) : List (String × FileEntry) :=
  (entries.map fun e =>
    (sortFiles e.files).map fun f => (joinRel e.dir f.name, f)).flatten

/-- All files of the walk in visitation order, each paired with its
root-relative path. -/
def allFiles (walk : List DirEntry) : List (String × FileEntry) :=
  filesOfEntries (sortEntries walk)

/-! ## The main loops (replace.py lines 75-123) -/

/-- Inner loop over the (sorted) files of one directory; stops at the
first uncaught exception. -/
def runFiles (args : Args) (newEff : Option String) (pred : String → Bool)
    (dirRel : String) : List FileEntry → Stats → Stats × List Event × Option String
  | [], st => (st, [], none)
  | fe :: rest, st =>
    match processFile args newEff pred dirRel fe st with
    | (st', evs, some e) => (st', evs, some e)
    | (st', evs, none) =>
      let r := runFiles args newEff pred dirRel rest st'
      (r.1, evs ++ r.2.1, r.2.2)

/-- Outer loop over the sorted walk entries; stops at the first uncaught
exception. -/
def runDirs (args : Args) (newEff : Option String) (pred : String → Bool) :
    List DirEntry → Stats → Stats × List Event × Option String
  | [], st => (st, [], none)
  | e :: rest, st =>
    match runFiles args newEff pred e.dir (sortFiles e.files) st with
    | (st', evs, some err) => (st', evs, some err)
    | (st', evs, none) =>
      let r := runDirs args newEff pred rest st'
      (r.1, evs ++ r.2.1, r.2.2)

/-- Result of one whole run. -/
structure RunResult where
  outcome : Outcome
  stats : Stats
  events : List Event

/-- The whole of `main()` (replace.py lines 42-128): cwd precondition,
old==new warning and demotion to search-only, root precondition, gitignore
loading, the traversal, and the final summary. -/
def pymain (w : World) (args : Args) : RunResult :=
  if w.cwdValid = false then ⟨Outcome.exited (cwdInvalidMsg w.cwd), stats0, []⟩
  else
    let warnEvs := if args.new = some args.old then [Event.warnOldNew] else []
    let newEff := if args.new = some args.old then none else args.new
    if w.rootIsDir = false then ⟨Outcome.exited (notADirMsg args.dir), stats0, warnEvs⟩
    else
      let g := gitignore w.gitEnv
      let evs0 := warnEvs ++ [Event.searchingUnder w.rootStr] ++ g.1
      match g.2 with
      | Except.error e => ⟨Outcome.crashed e, stats0, evs0⟩
      | Except.ok pred =>
        match runDirs args newEff pred (sortEntries w.walk) stats0 with
        | (st, evs, some e) => ⟨Outcome.crashed e, st, evs0 ++ evs⟩
        | (st, evs, none) =>
          ⟨Outcome.completed, st,
           evs0 ++ evs ++ [Event.summary st.searched st.occurrences newEff.isSome] ++
             (if st.failures ≠ 0 then [Event.failuresLine st.failures] else [])⟩

/-- The per-file contribution to the three counters, as a function of the
world alone: an ignored file contributes nothing; a failed read counts one
failure; a successful read counts one searched file, its occurrence count,
and one more failure when a nonzero count triggers a write that fails. -/
def deltaFile (old : String) (newEff : Option String) (pred : String → Bool)
    (dirRel : String) (fe : FileEntry) : Stats :=
  if pred (joinRel dirRel fe.name) then ⟨0, 0, 0⟩
  else
    match fe.readResult with
    | Except.error _ => ⟨0, 0, 1⟩
    | Except.ok c =>
      let k := pyCountS c old
      ⟨1, k,
        if k ≠ 0 then
          match newEff with
          | some _ => (match fe.writeResult with | Except.error _ => 1 | Except.ok _ => 0)
          | none => 0
        else 0⟩

/-- Classification of the events the per-file body can emit: startup and
summary events never appear; a read is opened only for non-ignored paths;
a write is attempted only when a replacement string is in effect. -/
def evOk (newEff : Option String) (pred : String → Bool) : Event → Bool
  | Event.warnOldNew => false
  | Event.searchingUnder _ => false
  | Event.importWarn => false
  | Event.summary _ _ _ => false
  | Event.failuresLine _ => false
  | Event.openRead p => !(pred p)
  | Event.writeAttempt _ _ => newEff.isSome
  | _ => true

/-- Whether a read outcome is a success. -/
def isReadOk : Except ReadErr String → Bool
  | Except.ok _ => true
  | Except.error _ => false

/-- Whether a write outcome is a failure. -/
def isWriteErr : Except String Unit → Bool
  | Except.error _ => true
  | Except.ok _ => false

/-- Accumulated counter contribution of a list of files in one directory. -/
def filesDelta (old : String) (newEff : Option String) (pred : String → Bool)
    (d : String) (fes : List FileEntry) : Stats :=
  (fes.map (deltaFile old newEff pred d)).foldr Stats.add stats0

/-- Accumulated counter contribution of a list of walk entries. -/
def entriesDelta (old : String) (newEff : Option String) (pred : String → Bool)
    (entries : List DirEntry) : Stats :=
  (entries.map fun e => filesDelta old newEff pred e.dir (sortFiles e.files)).foldr
    Stats.add stats0

/-- A file (given with its root-relative path) that is not ignored and
whose read succeeds: exactly the files the searched-files counter counts. -/
def eligReadOk (pred : String → Bool) (pf : String × FileEntry) : Bool :=
  !(pred pf.1) && isReadOk pf.2.readResult

/-- A non-ignored file whose read or decode fails. -/
def eligReadFail (pred : String → Bool) (pf : String × FileEntry) : Bool :=
  !(pred pf.1) && !(isReadOk pf.2.readResult)

/-- A non-ignored file that is read successfully, has matches, gets a
write attempt (replacement mode), and whose write fails. -/
def eligWriteFail (old : String) (newEff : Option String) (pred : String → Bool)
    (pf : String × FileEntry) : Bool :=
  !(pred pf.1) &&
    (match pf.2.readResult with
     | Except.ok c => decide (pyCountS c old ≠ 0) && newEff.isSome &&
         isWriteErr pf.2.writeResult
     | Except.error _ => false)

/-- Occurrence-count contribution of one file to the total. -/
def occContribution (old : String) (pred : String → Bool)
    (pf : String × FileEntry) : Nat :=
  if pred pf.1 then 0
  else
    match pf.2.readResult with
    | Except.ok c => pyCountS c old
    | Except.error _ => 0

/-! ## Concrete worlds used by witnesses and counterexamples -/

/-- A world with valid cwd and root, an unavailable gitignore module, and
a single readable file `a.txt`. -/
def wSuffix : World :=
  { cwd := "/w", cwdValid := true, rootStr := "/w", rootIsDir := true,
    gitEnv := { importOk := false, ancestors := [] },
    walk := [⟨"", [⟨"a.txt", Except.ok "hello", Except.ok ()⟩]⟩] }

/-- Arguments requesting the suffix filter `-g py`. -/
def aSuffix : Args :=
  { dir := "/w", file_type := "py", quiet := false, verbose := false,
    old := "x", new := none }

/-- A gitignore environment whose root holds a `.gitignore` file that
fails to parse. -/
def envParseFail : GitignoreEnv :=
  { importOk := true,
    ancestors := [⟨true, false, Except.error "ValueError: malformed pattern"⟩] }

/-- A gitignore environment where the module import fails. -/
def envNoImport : GitignoreEnv := ⟨false, []⟩

/-- A world whose single directory holds one readable file with two
matches of `"foo"` and one file that fails to decode. -/
def wMix : World :=
  { cwd := "/w", cwdValid := true, rootStr := "/w", rootIsDir := true,
    gitEnv := { importOk := false, ancestors := [] },
    walk := [⟨"", [⟨"good.txt", Except.ok "foo bar foo", Except.ok ()⟩,
                   ⟨"bad.bin", Except.error ReadErr.decode, Except.ok ()⟩]⟩] }

/-- Search-only arguments with no suffix filter, searching for `"foo"`. -/
def aPlain : Args :=
  { dir := "/w", file_type := "", quiet := false, verbose := false,
    old := "foo", new := none }

/-- Arguments where the replacement string equals the search string. -/
def aSame : Args :=
  { dir := "/w", file_type := "", quiet := false, verbose := false,
    old := "foo", new := some "foo" }

/-- A file whose read raises an IOError. -/
def feIO : FileEntry :=
  ⟨"broken.txt", Except.error (ReadErr.io "Permission denied"), Except.ok ()⟩

/-- A file with no occurrence of `"foo"`. -/
def feZero : FileEntry := ⟨"empty.txt", Except.ok "nothing here", Except.ok ()⟩

/-- An ignore predicate matching exactly `secret.txt`. -/
def ignPred : String → Bool := fun p => p == "secret.txt"

/-- A gitignore environment whose root `.gitignore` parses to `ignPred`. -/
def envIgn : GitignoreEnv := ⟨true, [⟨true, false, Except.ok ignPred⟩]⟩

/-- A world with an ignored file and a searched file. -/
def wIgn : World :=
  { cwd := "/w", cwdValid := true, rootStr := "/w", rootIsDir := true,
    gitEnv := envIgn,
    walk := [⟨"", [⟨"secret.txt", Except.ok "foo", Except.ok ()⟩,
                   ⟨"open.txt", Except.ok "foo", Except.ok ()⟩]⟩] }

/-- A world with valid cwd and root whose `.gitignore` fails to parse. -/
def wParseFail : World :=
  { cwd := "/w", cwdValid := true, rootStr := "/w", rootIsDir := true,
    gitEnv := envParseFail, walk := [] }

/-- A world whose current working directory is invalid. -/
def wBadCwd : World :=
  { cwd := "/gone", cwdValid := false, rootStr := "/gone", rootIsDir := true,
    gitEnv := envNoImport, walk := [] }

/-- A small readable file used by the traversal witness. -/
def fX : FileEntry := ⟨"x.txt", Except.ok "foo", Except.ok ()⟩

/-- A second small readable file used by the traversal witness. -/
def fY : FileEntry := ⟨"y.txt", Except.ok "bar", Except.ok ()⟩

/-- One enumeration order of a two-directory tree. -/
def walkA : List DirEntry := [⟨"b", [fX]⟩, ⟨"a", [fY]⟩]

/-- The same tree enumerated in the opposite order. -/
def walkB : List DirEntry := [⟨"a", [fY]⟩, ⟨"b", [fX]⟩]

/-! ## Theorems -/

theorem single_isPrefixOf_cons (c a : Char) (s : List Char) :
    [c].isPrefixOf (a :: s) = (c == a) := by
  simp [List.isPrefixOf]

theorem countSkip_single {c : Char} {t : List Char} (h : c ∉ t) :
    countSkip [c] t 0 = 0 := by
  induction t with
  | nil => rfl
  | cons a s ih =>
    have hca : ¬(c = a) := fun hh => h (hh ▸ List.mem_cons_self a s)
    have hs : c ∉ s := fun hh => h (List.mem_cons_of_mem a hh)
    rw [countSkip, single_isPrefixOf_cons, if_neg (by simp [hca]), ih hs]

theorem not_mem_replaceSkip_single {c : Char} {new : List Char} (hc : c ∉ new) :
    ∀ s : List Char, c ∉ replaceSkip [c] new s 0 := by
  intro s
  induction s with
  | nil => simp [replaceSkip]
  | cons a t ih =>
    by_cases hca : c = a
    · subst hca
      rw [replaceSkip, single_isPrefixOf_cons, if_pos (by simp)]
      intro hmem
      rcases List.mem_append.mp hmem with h1 | h2
      · exact hc h1
      · exact ih h2
    · rw [replaceSkip, single_isPrefixOf_cons, if_neg (by simp [hca])]
      intro hmem
      rcases List.mem_cons.mp hmem with h1 | h2
      · exact hca h1
      · exact ih h2

theorem replaceSkip_single_id {c : Char} {new : List Char} :
    ∀ {t : List Char}, c ∉ t → replaceSkip [c] new t 0 = t := by
  intro t h
  induction t with
  | nil => rfl
  | cons a s ih =>
    have hca : ¬(c = a) := fun hh => h (hh ▸ List.mem_cons_self a s)
    have hs : c ∉ s := fun hh => h (List.mem_cons_of_mem a hh)
    rw [replaceSkip, single_isPrefixOf_cons, if_neg (by simp [hca]), ih hs]

/-- Claim C1, counterexample: for content `"aaa"`, search string
`"aa"` and replacement `"a"`, the search string is non-empty, occurs in the
content, is not a substring of the replacement, and yet the replaced
content (`"aa"`) still contains an occurrence, so the occurrence count
after replacement is not 0 and a second run would find it. -/
theorem c1_counterexample :
    "aa".toList ≠ [] ∧
    0 < pyCount "aaa".toList "aa".toList ∧
    hasSub "aa".toList "a".toList = false ∧
    pyCount (pyReplace "aaa".toList "aa".toList "a".toList) "aa".toList ≠ 0 := by
  decide

/-- Claim C1, amended: replacing every occurrence of a single-character
search string `c` with a replacement not containing `c` yields a content
with zero occurrences of the search string, and a second run with the same
strings finds zero occurrences and leaves the content unchanged.  (The
condition of the original claim, that the search string is not a substring
of the replacement, is insufficient: replacement can create new
occurrences across boundaries.) -/
theorem c1_single_char_replacement_eliminates (c : Char) (s new : List Char)
    (hc : c ∉ new) (_hN : 0 < pyCount s [c]) :
    pyCount (pyReplace s [c] new) [c] = 0 ∧
    pyReplace (pyReplace s [c] new) [c] new = pyReplace s [c] new := by
  have hrep : pyReplace s [c] new = replaceSkip [c] new s 0 := by
    simp [pyReplace]
  have hmem : c ∉ replaceSkip [c] new s 0 := not_mem_replaceSkip_single hc s
  constructor
  · rw [hrep]
    simp only [pyCount, if_neg (by simp : ¬([c] = ([] : List Char)))]
    exact countSkip_single hmem
  · rw [hrep]
    simp only [pyReplace, if_neg (by simp : ¬([c] = ([] : List Char)))]
    exact replaceSkip_single_id hmem

/-- Witness for the amended claim C1 at `c = a`, content `"aaa"`,
replacement `"b"`. -/
theorem c1_witness :
    ('a' ∉ "b".toList) ∧ 0 < pyCount "aaa".toList ['a'] ∧
    (pyCount (pyReplace "aaa".toList ['a'] "b".toList) ['a'] = 0 ∧
     pyReplace (pyReplace "aaa".toList ['a'] "b".toList) ['a'] "b".toList =
       pyReplace "aaa".toList ['a'] "b".toList) :=
  ⟨by decide, by decide,
   c1_single_char_replacement_eliminates 'a' "aaa".toList "b".toList
     (by decide) (by decide)⟩

/-- Claim C2 (code bug): with a suffix filter configured (`-g py`), a run
over a tree containing one eligible readable file does not skip or search
the file; it crashes with an uncaught AttributeError, because
`pathlib.Path` has no `endswith` method.  The file is never opened: the
trace holds only the startup messages. -/
theorem c2_suffix_filter_crash :
    (pymain wSuffix aSuffix).outcome = Outcome.crashed attrErrMsg ∧
    wSuffix.cwdValid = true ∧ wSuffix.rootIsDir = true ∧
    (pymain wSuffix aSuffix).events =
      [Event.searchingUnder "/w", Event.importWarn] := by
  decide

/-- Claim C7, counterexample: when the gitignore module imports fine and
the root holds a `.gitignore` file whose parse raises, `gitignore` returns
the propagated exception with no warning printed, instead of warning and
degrading to the always-false predicate. -/
theorem c7_counterexample :
    (gitignore envParseFail).1 = [] ∧
    (gitignore envParseFail).2 = Except.error "ValueError: malformed pattern" :=
  ⟨rfl, rfl⟩

/-- Claim C7, amended: if the gitignore parsing capability is unavailable
(the import fails), `gitignore` emits a non-fatal warning and returns the
always-false predicate, never aborting; but when the import succeeds and
the nearest ancestor holds a `.gitignore` file, the parse result is
returned as-is, so a parse failure propagates un-caught. -/
theorem c7_import_failure_degrades (env : GitignoreEnv) :
    (env.importOk = false →
      gitignore env = ([Event.importWarn], Except.ok (fun _ => false))) ∧
    (∀ d rest, env.importOk = true → env.ancestors = d :: rest →
      d.hasGitignoreFile = true → gitignore env = ([], d.parseResult)) := by
  constructor
  · intro h
    simp [gitignore, h]
  · intro d rest h1 h2 h3
    simp [gitignore, h1, h2, gitignoreLoop, h3]

/-- Witness for the amended claim C7: a failing import yields the warning
and the always-false predicate. -/
theorem c7_witness :
    gitignore envNoImport = ([Event.importWarn], Except.ok (fun _ => false)) :=
  (c7_import_failure_degrades envNoImport).1 rfl

theorem stats_add_zero (a : Stats) : a.add stats0 = a := by
  simp [Stats.add, stats0]

theorem stats_zero_add (a : Stats) : stats0.add a = a := by
  simp [Stats.add, stats0]

theorem stats_add_assoc (a b c : Stats) : (a.add b).add c = a.add (b.add c) := by
  simp [Stats.add, Nat.add_assoc]

theorem processFile_stats (args : Args) (newEff : Option String)
    (pred : String → Bool) (dirRel : String) (fe : FileEntry) (st : Stats)
    (hft : args.file_type = "") :
    (processFile args newEff pred dirRel fe st).1 =
      st.add (deltaFile args.old newEff pred dirRel fe) ∧
    (processFile args newEff pred dirRel fe st).2.2 = none := by
  unfold processFile deltaFile
  by_cases hpred : pred (joinRel dirRel fe.name)
  · simp [hpred, Stats.add]
  · rcases hr : fe.readResult with e | c
    · cases e <;> simp [hpred, hft, hr, Stats.add]
    · by_cases hc : pyCountS c args.old = 0
      · simp [hpred, hft, hr, hc, Stats.add]
      · rcases newEff with _ | n
        · simp [hpred, hft, hr, hc, Stats.add]
        · rcases hw : fe.writeResult with m | u
          · simp [hpred, hft, hr, hc, hw, Stats.add]
          · simp [hpred, hft, hr, hc, hw, Stats.add]

theorem runFiles_stats (args : Args) (newEff : Option String)
    (pred : String → Bool) (dirRel : String) (hft : args.file_type = "") :
    ∀ (fes : List FileEntry) (st : Stats),
      (runFiles args newEff pred dirRel fes st).1 =
        st.add (filesDelta args.old newEff pred dirRel fes) ∧
      (runFiles args newEff pred dirRel fes st).2.2 = none := by
  intro fes
  induction fes with
  | nil => intro st; simp [runFiles, filesDelta, stats_add_zero]
  | cons fe rest ih =>
    intro st
    have hpf := processFile_stats args newEff pred dirRel fe st hft
    rcases hres : processFile args newEff pred dirRel fe st with ⟨st', evs, err⟩
    rw [hres] at hpf
    simp only at hpf
    rcases hpf with ⟨hst', herr⟩
    subst herr
    have hih := ih st'
    rcases hrec : runFiles args newEff pred dirRel rest st' with ⟨st'', evs', err'⟩
    rw [hrec] at hih
    simp only at hih
    rcases hih with ⟨hst'', herr'⟩
    subst herr'
    constructor
    · show (runFiles args newEff pred dirRel (fe :: rest) st).1 = _
      rw [runFiles, hres]
      simp only [hrec]
      rw [hst'', hst']
      conv_rhs => rw [filesDelta, List.map_cons, List.foldr_cons]
      rw [stats_add_assoc]
      rfl
    · show (runFiles args newEff pred dirRel (fe :: rest) st).2.2 = none
      rw [runFiles, hres]
      simp only [hrec]

theorem runDirs_stats (args : Args) (newEff : Option String)
    (pred : String → Bool) (hft : args.file_type = "") :
    ∀ (entries : List DirEntry) (st : Stats),
      (runDirs args newEff pred entries st).1 =
        st.add (entriesDelta args.old newEff pred entries) ∧
      (runDirs args newEff pred entries st).2.2 = none := by
  intro entries
  induction entries with
  | nil => intro st; simp [runDirs, entriesDelta, stats_add_zero]
  | cons e rest ih =>
    intro st
    have hrf := runFiles_stats args newEff pred e.dir hft (sortFiles e.files) st
    rcases hres : runFiles args newEff pred e.dir (sortFiles e.files) st with ⟨st', evs, err⟩
    rw [hres] at hrf
    simp only at hrf
    rcases hrf with ⟨hst', herr⟩
    subst herr
    have hih := ih st'
    rcases hrec : runDirs args newEff pred rest st' with ⟨st'', evs', err'⟩
    rw [hrec] at hih
    simp only at hih
    rcases hih with ⟨hst'', herr'⟩
    subst herr'
    constructor
    · show (runDirs args newEff pred (e :: rest) st).1 = _
      rw [runDirs, hres]
      simp only [hrec]
      rw [hst'', hst']
      conv_rhs => rw [entriesDelta, List.map_cons, List.foldr_cons]
      rw [stats_add_assoc]
      rfl
    · show (runDirs args newEff pred (e :: rest) st).2.2 = none
      rw [runDirs, hres]
      simp only [hrec]

theorem deltaFile_searched (old : String) (newEff : Option String)
    (pred : String → Bool) (d : String) (fe : FileEntry) :
    (deltaFile old newEff pred d fe).searched =
      if eligReadOk pred (joinRel d fe.name, fe) then 1 else 0 := by
  unfold deltaFile eligReadOk isReadOk
  by_cases hp : pred (joinRel d fe.name)
  · simp [hp]
  · rcases hr : fe.readResult with e | c <;> simp [hp, hr]

theorem deltaFile_occurrences (old : String) (newEff : Option String)
    (pred : String → Bool) (d : String) (fe : FileEntry) :
    (deltaFile old newEff pred d fe).occurrences =
      occContribution old pred (joinRel d fe.name, fe) := by
  unfold deltaFile occContribution
  by_cases hp : pred (joinRel d fe.name)
  · simp [hp]
  · rcases hr : fe.readResult with e | c <;> simp [hp, hr]

theorem deltaFile_failures (old : String) (newEff : Option String)
    (pred : String → Bool) (d : String) (fe : FileEntry) :
    (deltaFile old newEff pred d fe).failures =
      (if eligReadFail pred (joinRel d fe.name, fe) then 1 else 0) +
      (if eligWriteFail old newEff pred (joinRel d fe.name, fe) then 1 else 0) := by
  unfold deltaFile eligReadFail eligWriteFail isReadOk isWriteErr
  by_cases hp : pred (joinRel d fe.name)
  · simp [hp]
  · rcases hr : fe.readResult with e | c
    · simp [hp, hr]
    · by_cases hc : pyCountS c old = 0
      · simp [hp, hr, hc]
      · rcases newEff with _ | n
        · simp [hp, hr, hc]
        · rcases hw : fe.writeResult with m | u <;> simp [hp, hr, hc, hw]

theorem sum_ite_one_eq_countP {α : Type} (p : α → Bool) :
    ∀ l : List α, (l.map fun x => if p x then 1 else 0).sum = l.countP p := by
  intro l
  induction l with
  | nil => simp
  | cons a t ih =>
    by_cases hp : p a <;> simp [List.countP_cons, hp, ih, Nat.add_comm]

theorem filesDelta_spec (old : String) (newEff : Option String)
    (pred : String → Bool) (d : String) :
    ∀ fes : List FileEntry,
      (filesDelta old newEff pred d fes).searched =
        (fes.map fun f => (joinRel d f.name, f)).countP (eligReadOk pred) ∧
      (filesDelta old newEff pred d fes).occurrences =
        ((fes.map fun f => (joinRel d f.name, f)).map (occContribution old pred)).sum ∧
      (filesDelta old newEff pred d fes).failures =
        (fes.map fun f => (joinRel d f.name, f)).countP (eligReadFail pred) +
        (fes.map fun f => (joinRel d f.name, f)).countP (eligWriteFail old newEff pred) := by
  intro fes
  induction fes with
  | nil => simp [filesDelta, stats0]
  | cons fe rest ih =>
    rcases ih with ⟨ih1, ih2, ih3⟩
    have h1 := deltaFile_searched old newEff pred d fe
    have h2 := deltaFile_occurrences old newEff pred d fe
    have h3 := deltaFile_failures old newEff pred d fe
    unfold filesDelta at ih1 ih2 ih3 ⊢
    simp only [List.map_cons, List.foldr_cons]
    refine ⟨?_, ?_, ?_⟩
    · simp [Stats.add, h1, ih1, List.countP_cons]
      by_cases hp : eligReadOk pred (joinRel d fe.name, fe) <;> simp [hp] <;> try omega
    · simp [Stats.add, h2, ih2]
      try omega
    · simp [Stats.add, h3, ih3, List.countP_cons]
      by_cases hp : eligReadFail pred (joinRel d fe.name, fe) <;>
        by_cases hq : eligWriteFail old newEff pred (joinRel d fe.name, fe) <;>
        simp [hp, hq] <;> try omega

theorem entriesDelta_spec (old : String) (newEff : Option String)
    (pred : String → Bool) :
    ∀ entries : List DirEntry,
      (entriesDelta old newEff pred entries).searched =
        (filesOfEntries entries).countP (eligReadOk pred) ∧
      (entriesDelta old newEff pred entries).occurrences =
        ((filesOfEntries entries).map (occContribution old pred)).sum ∧
      (entriesDelta old newEff pred entries).failures =
        (filesOfEntries entries).countP (eligReadFail pred) +
        (filesOfEntries entries).countP (eligWriteFail old newEff pred) := by
  intro entries
  induction entries with
  | nil => simp [entriesDelta, filesOfEntries, stats0]
  | cons e rest ih =>
    rcases ih with ⟨ih1, ih2, ih3⟩
    rcases filesDelta_spec old newEff pred e.dir (sortFiles e.files) with ⟨h1, h2, h3⟩
    unfold entriesDelta at ih1 ih2 ih3 ⊢
    unfold filesOfEntries at ih1 ih2 ih3 ⊢
    simp only [List.map_cons, List.foldr_cons, List.flatten_cons]
    refine ⟨?_, ?_, ?_⟩
    · simp [Stats.add, h1, ih1, List.countP_append]
    · simp [Stats.add, h2, ih2]
    · simp [Stats.add, h3, ih3, List.countP_append]
      omega

theorem pymain_completed (w : World) (args : Args) (gw : List Event)
    (pred : String → Bool) (hcwd : w.cwdValid = true) (hroot : w.rootIsDir = true)
    (hgit : gitignore w.gitEnv = (gw, Except.ok pred)) (hft : args.file_type = "") :
    (pymain w args).outcome = Outcome.completed ∧
    (pymain w args).stats =
      entriesDelta args.old (if args.new = some args.old then none else args.new)
        pred (sortEntries w.walk) := by
  have hrd := runDirs_stats args
    (if args.new = some args.old then none else args.new) pred hft
    (sortEntries w.walk) stats0
  rcases hres : runDirs args (if args.new = some args.old then none else args.new)
      pred (sortEntries w.walk) stats0 with ⟨st, evs, err⟩
  rw [hres] at hrd
  simp only at hrd
  rcases hrd with ⟨hst, herr⟩
  subst herr
  unfold pymain
  rw [hcwd, hroot, hgit]
  simp only [Bool.true_eq_false, if_false, hres]
  refine ⟨trivial, ?_⟩
  simp [hst, stats_zero_add]

/-- Claim C10: the files-searched counter counts exactly the non-ignored
files whose read and decode succeeded; a file whose read or decode fails
increments the failure counter instead, is excluded from the
files-searched count, and contributes nothing to the occurrence total.
(Stated for runs without the suffix filter, which crashes; see claim
C2.) -/
theorem c10_searched_counter_exact (w : World) (args : Args) (gw : List Event)
    (pred : String → Bool) (hcwd : w.cwdValid = true) (hroot : w.rootIsDir = true)
    (hgit : gitignore w.gitEnv = (gw, Except.ok pred)) (hft : args.file_type = "") :
    (pymain w args).stats.searched = (allFiles w.walk).countP (eligReadOk pred) ∧
    (pymain w args).stats.occurrences =
      ((allFiles w.walk).map (occContribution args.old pred)).sum ∧
    (pymain w args).stats.failures =
      (allFiles w.walk).countP (eligReadFail pred) +
      (allFiles w.walk).countP
        (eligWriteFail args.old
          (if args.new = some args.old then none else args.new) pred) := by
  rcases pymain_completed w args gw pred hcwd hroot hgit hft with ⟨_, hstats⟩
  rcases entriesDelta_spec args.old
      (if args.new = some args.old then none else args.new) pred
      (sortEntries w.walk) with ⟨h1, h2, h3⟩
  rw [hstats]
  unfold allFiles
  exact ⟨h1, h2, h3⟩

/-- Witness for claim C10: in a world with one readable file holding two
matches and one undecodable file, the counters equal the respective counts
over the file list. -/
theorem c10_witness :
    (pymain wMix aPlain).stats.searched =
      (allFiles wMix.walk).countP (eligReadOk (fun _ => false)) ∧
    (pymain wMix aPlain).stats.occurrences =
      ((allFiles wMix.walk).map (occContribution aPlain.old (fun _ => false))).sum ∧
    (pymain wMix aPlain).stats.failures =
      (allFiles wMix.walk).countP (eligReadFail (fun _ => false)) +
      (allFiles wMix.walk).countP
        (eligWriteFail aPlain.old
          (if aPlain.new = some aPlain.old then none else aPlain.new)
          (fun _ => false)) :=
  c10_searched_counter_exact wMix aPlain [Event.importWarn] (fun _ => false)
    rfl rfl rfl rfl

/-- Claim C5: per-file read failures, decode failures and write failures
are each caught at the per-file boundary, logged with the offending path,
and turned into exactly one failure-counter increment; they never produce
an uncaught exception, so the traversal of the remaining files and
directories always continues.  (Stated for runs without the suffix filter,
whose attribute error is a different, unrelated crash; see claim C2.) -/
theorem c5_per_file_failure_isolation (args : Args) (hft : args.file_type = "") :
    (∀ (newEff : Option String) (pred : String → Bool) (d : String)
        (fe : FileEntry) (st : Stats),
      (processFile args newEff pred d fe st).2.2 = none) ∧
    (∀ (newEff : Option String) (pred : String → Bool) (d : String)
        (fe : FileEntry) (st : Stats) (m : String),
      pred (joinRel d fe.name) = false →
      fe.readResult = Except.error (ReadErr.io m) →
      processFile args newEff pred d fe st =
        ({ st with failures := st.failures + 1 },
         (if args.verbose then [Event.searching (joinRel d fe.name)] else []) ++
           [Event.openRead (joinRel d fe.name),
            Event.readFail (joinRel d fe.name) m], none)) ∧
    (∀ (newEff : Option String) (pred : String → Bool) (d : String)
        (fe : FileEntry) (st : Stats),
      pred (joinRel d fe.name) = false →
      fe.readResult = Except.error ReadErr.decode →
      processFile args newEff pred d fe st =
        ({ st with failures := st.failures + 1 },
         (if args.verbose then [Event.searching (joinRel d fe.name)] else []) ++
           [Event.openRead (joinRel d fe.name),
            Event.decodeFail (joinRel d fe.name)], none)) ∧
    (∀ (n : String) (pred : String → Bool) (d : String) (fe : FileEntry)
        (st : Stats) (c : String) (m : String),
      pred (joinRel d fe.name) = false →
      fe.readResult = Except.ok c → pyCountS c args.old ≠ 0 →
      fe.writeResult = Except.error m →
      (processFile args (some n) pred d fe st).1.failures = st.failures + 1 ∧
      (processFile args (some n) pred d fe st).2.2 = none ∧
      Event.writeFail (joinRel d fe.name) m ∈ (processFile args (some n) pred d fe st).2.1) ∧
    (∀ (newEff : Option String) (pred : String → Bool) (entries : List DirEntry)
        (st : Stats),
      (runDirs args newEff pred entries st).2.2 = none) := by
  refine ⟨?_, ?_, ?_, ?_, ?_⟩
  · intro newEff pred d fe st
    exact (processFile_stats args newEff pred d fe st hft).2
  · intro newEff pred d fe st m hp hr
    simp [processFile, hp, hft, hr]
  · intro newEff pred d fe st hp hr
    simp [processFile, hp, hft, hr]
  · intro n pred d fe st c m hp hr hc hw
    refine ⟨?_, ?_, ?_⟩ <;> simp [processFile, hp, hft, hr, hc, hw]
  · intro newEff pred entries st
    exact (runDirs_stats args newEff pred hft entries st).2

/-- Witness for claim C5: a file whose read raises an IOError is logged
and counted as exactly one failure, and the run over a tree with an
undecodable file finishes without an uncaught exception. -/
theorem c5_witness :
    (processFile aPlain none (fun _ => false) "" feIO stats0 =
      (⟨0, 0, 1⟩,
       [Event.openRead "broken.txt", Event.readFail "broken.txt" "Permission denied"],
       none)) ∧
    (runDirs aPlain none (fun _ => false) (sortEntries wMix.walk) stats0).2.2 = none :=
  ⟨(c5_per_file_failure_isolation aPlain rfl).2.1 none (fun _ => false) ""
      feIO stats0 "Permission denied" rfl rfl,
   (c5_per_file_failure_isolation aPlain rfl).2.2.2.2 none (fun _ => false)
      (sortEntries wMix.walk) stats0⟩

theorem mem_matchLines (old contents : String) :
    ∀ ev ∈ matchLines old contents, ∃ i l, ev = Event.matchLine i l := by
  intro ev h
  rcases List.mem_filterMap.mp h with ⟨p, _, hp⟩
  by_cases hs : hasSub old.toList p.2.toList
  · rw [if_pos hs] at hp
    exact ⟨p.1, pyReplaceS p.2 old (greenStr old), (Option.some.inj hp).symm⟩
  · rw [if_neg hs] at hp
    cases hp

theorem processFile_events_ok (args : Args) (newEff : Option String)
    (pred : String → Bool) (d : String) (fe : FileEntry) (st : Stats) :
    ∀ ev ∈ (processFile args newEff pred d fe st).2.1,
      evOk newEff pred ev = true := by
  intro ev h
  unfold processFile at h
  by_cases hpred : pred (joinRel d fe.name)
  · rw [if_pos hpred] at h
    simp only at h
    split at h
    · simp at h
      subst h
      rfl
    · simp at h
  · rw [if_neg hpred] at h
    by_cases hft : args.file_type = ""
    · rw [if_neg (fun hne => hne hft)] at h
      simp only at h
      rcases hr : fe.readResult with e | c
      · rw [hr] at h
        cases e with
        | io m =>
          rcases List.mem_append.mp h with h1 | h2
          · split at h1
            · simp at h1; subst h1; rfl
            · simp at h1
          · simp at h2
            rcases h2 with h2 | h2 <;> subst h2 <;> simp [evOk, hpred]
        | decode =>
          rcases List.mem_append.mp h with h1 | h2
          · split at h1
            · simp at h1; subst h1; rfl
            · simp at h1
          · simp at h2
            rcases h2 with h2 | h2 <;> subst h2 <;> simp [evOk, hpred]
      · rw [hr] at h
        simp only at h
        by_cases hc : pyCountS c args.old ≠ 0
        · rw [if_pos hc] at h
          have hhead : ∀ ev2 ∈ ((if args.verbose then [Event.searching (joinRel d fe.name)] else []) ++
              [Event.openRead (joinRel d fe.name), Event.found (pyCountS c args.old) (joinRel d fe.name)] ++
              (if args.quiet then [] else matchLines args.old c)),
              evOk newEff pred ev2 = true := by
            intro ev2 h2
            rcases List.mem_append.mp h2 with h3 | h4
            · rcases List.mem_append.mp h3 with h5 | h6
              · split at h5
                · simp at h5; subst h5; rfl
                · simp at h5
              · simp at h6
                rcases h6 with h6 | h6 <;> subst h6 <;> simp [evOk, hpred]
            · split at h4
              · simp at h4
              · rcases mem_matchLines args.old c ev2 h4 with ⟨i, l, hl⟩
                subst hl
                rfl
          rcases hne : newEff with _ | n
          · rw [hne] at h hhead
            rcases List.mem_append.mp h with h1 | h2
            · exact hhead ev h1
            · simp at h2
              subst h2
              rfl
          · rw [hne] at h hhead
            rcases hw : fe.writeResult with m | u
            · rw [hw] at h
              rcases List.mem_append.mp h with h1 | h2
              · exact hhead ev h1
              · simp at h2
                rcases h2 with h2 | h2 | h2 <;> subst h2 <;> simp [evOk]
            · rw [hw] at h
              rcases List.mem_append.mp h with h1 | h2
              · exact hhead ev h1
              · simp at h2
                rcases h2 with h2 | h2 | h2 <;> subst h2 <;> simp [evOk]
        · rw [if_neg hc] at h
          rcases List.mem_append.mp h with h1 | h2
          · split at h1
            · simp at h1; subst h1; rfl
            · simp at h1
          · simp at h2
            subst h2
            simp [evOk, hpred]
    · rw [if_pos hft] at h
      simp at h

theorem runFiles_events_ok (args : Args) (newEff : Option String)
    (pred : String → Bool) (d : String) :
    ∀ (fes : List FileEntry) (st : Stats),
      ∀ ev ∈ (runFiles args newEff pred d fes st).2.1,
        evOk newEff pred ev = true := by
  intro fes
  induction fes with
  | nil => intro st ev h; simp [runFiles] at h
  | cons fe rest ih =>
    intro st ev h
    have hpf := processFile_events_ok args newEff pred d fe st
    rw [runFiles] at h
    rcases hres : processFile args newEff pred d fe st with ⟨st', evs, err⟩
    rw [hres] at h hpf
    cases err with
    | some e => exact hpf ev h
    | none =>
      simp only at h
      rcases List.mem_append.mp h with h1 | h2
      · exact hpf ev h1
      · exact ih st' ev h2

theorem runDirs_events_ok (args : Args) (newEff : Option String)
    (pred : String → Bool) :
    ∀ (entries : List DirEntry) (st : Stats),
      ∀ ev ∈ (runDirs args newEff pred entries st).2.1,
        evOk newEff pred ev = true := by
  intro entries
  induction entries with
  | nil => intro st ev h; simp [runDirs] at h
  | cons e rest ih =>
    intro st ev h
    have hrf := runFiles_events_ok args newEff pred e.dir (sortFiles e.files) st
    rw [runDirs] at h
    rcases hres : runFiles args newEff pred e.dir (sortFiles e.files) st with ⟨st', evs, err⟩
    rw [hres] at h hrf
    cases err with
    | some er => exact hrf ev h
    | none =>
      simp only at h
      rcases List.mem_append.mp h with h1 | h2
      · exact hrf ev h1
      · exact ih st' ev h2

theorem gitignore_events (env : GitignoreEnv) :
    (gitignore env).1 = [] ∨ (gitignore env).1 = [Event.importWarn] := by
  by_cases h : env.importOk = true
  · left; simp [gitignore, h]
  · right; simp [gitignore, Bool.eq_false_iff.mpr h]

/-- Claim C9: at no step of a run is a file whose root-relative path
satisfies the ignore predicate opened for reading: every `openRead` event
in the trace is for a path the predicate rejects. -/
theorem c9_ignored_never_opened (w : World) (args : Args) (gw : List Event)
    (pred : String → Bool)
    (hgit : gitignore w.gitEnv = (gw, Except.ok pred)) :
    ∀ p, Event.openRead p ∈ (pymain w args).events → pred p = false := by
  intro p hp
  have hgw := gitignore_events w.gitEnv
  rw [hgit] at hgw
  simp only at hgw
  unfold pymain at hp
  by_cases hcwd : w.cwdValid = false
  · rw [if_pos hcwd] at hp
    simp at hp
  · rw [if_neg hcwd] at hp
    simp only at hp
    by_cases hroot : w.rootIsDir = false
    · rw [if_pos hroot] at hp
      split at hp <;> simp at hp
    · rw [if_neg hroot] at hp
      rw [hgit] at hp
      simp only at hp
      rcases hrd : runDirs args (if args.new = some args.old then none else args.new)
          pred (sortEntries w.walk) stats0 with ⟨st, evs, err⟩
      rw [hrd] at hp
      have hloop := runDirs_events_ok args
        (if args.new = some args.old then none else args.new) pred
        (sortEntries w.walk) stats0
      rw [hrd] at hloop
      simp only at hloop
      have hstart : Event.openRead p ∉
          ((if args.new = some args.old then [Event.warnOldNew] else []) ++
            [Event.searchingUnder w.rootStr] ++ gw) := by
        intro hmem
        rcases List.mem_append.mp hmem with h1 | h2
        · rcases List.mem_append.mp h1 with h3 | h4
          · split at h3 <;> simp at h3
          · simp at h4
        · rcases hgw with hgw | hgw <;> subst hgw <;> simp at h2
      have hofloop : Event.openRead p ∈ evs → pred p = false := by
        intro hmem
        have := hloop (Event.openRead p) hmem
        simpa [evOk] using this
      cases err with
      | some e =>
        simp only at hp
        rcases List.mem_append.mp hp with h1 | h2
        · exact absurd h1 hstart
        · exact hofloop h2
      | none =>
        simp only at hp
        rcases List.mem_append.mp hp with h1 | h2
        · rcases List.mem_append.mp h1 with h3 | h4
          · rcases List.mem_append.mp h3 with h5 | h6
            · exact absurd h5 hstart
            · exact hofloop h6
          · simp at h4
        · split at h2 <;> simp at h2

/-- Witness for claim C9: with a parsed ignore predicate matching
`secret.txt`, every path opened for reading is rejected by the
predicate. -/
theorem c9_witness :
    gitignore wIgn.gitEnv = ([], Except.ok ignPred) ∧
    (∀ p, Event.openRead p ∈ (pymain wIgn aPlain).events → ignPred p = false) :=
  ⟨rfl, c9_ignored_never_opened wIgn aPlain [] ignPred rfl⟩

/-- Claim C3: a processed file whose content has zero occurrences of the
search string produces no per-file output (beyond the verbose searching
message of the traversal phase) and is never written, in search-only and
replace mode alike: the per-file body returns only the searched-files
increment and the read event. -/
theorem c3_zero_occurrence_silent_unchanged (args : Args) (newEff : Option String)
    (pred : String → Bool) (dirRel : String) (fe : FileEntry) (st : Stats)
    (c : String) (hft : args.file_type = "")
    (hpred : pred (joinRel dirRel fe.name) = false)
    (hread : fe.readResult = Except.ok c) (hcount : pyCountS c args.old = 0) :
    processFile args newEff pred dirRel fe st =
      ({ st with searched := st.searched + 1 },
       (if args.verbose then [Event.searching (joinRel dirRel fe.name)] else []) ++
         [Event.openRead (joinRel dirRel fe.name)], none) := by
  simp [processFile, hpred, hft, hread, hcount]

/-- Witness for claim C3 in replace mode: a file without matches yields
only the counter increment and the read event; in particular no write
attempt. -/
theorem c3_witness :
    pyCountS "nothing here" aPlain.old = 0 ∧
    processFile aPlain (some "qux") (fun _ => false) "" feZero stats0 =
      (⟨1, 0, 0⟩, [Event.openRead "empty.txt"], none) :=
  ⟨by decide,
   c3_zero_occurrence_silent_unchanged aPlain (some "qux") (fun _ => false) ""
     feZero stats0 "nothing here" rfl rfl rfl (by decide)⟩

/-- Claim C4: when the supplied replacement string equals the search
string, the run prints the warning exactly once at startup and behaves as
search-only for the entire run: no write is ever attempted on any file
(regardless of occurrence counts), and any final summary reports in
found-mode, not replaced-mode. -/
theorem c4_old_eq_new_search_only (w : World) (args : Args)
    (hold : args.new = some args.old) (hcwd : w.cwdValid = true) :
    Event.warnOldNew ∈ (pymain w args).events ∧
    (pymain w args).events.count Event.warnOldNew = 1 ∧
    (∀ p m, Event.writeAttempt p m ∉ (pymain w args).events) ∧
    (∀ a b r, Event.summary a b r ∈ (pymain w args).events → r = false) := by
  unfold pymain
  rw [if_neg (by simp [hcwd])]
  simp only [if_pos hold]
  by_cases hroot : w.rootIsDir = false
  · rw [if_pos hroot]
    refine ⟨by simp, by simp, by simp, by simp⟩
  · rw [if_neg hroot]
    have hgw := gitignore_events w.gitEnv
    rcases hg : gitignore w.gitEnv with ⟨gw, res⟩
    rw [hg] at hgw
    simp only at hgw
    simp only [hg]
    cases res with
    | error e =>
      simp only
      rcases hgw with hgw | hgw <;> subst hgw <;>
        refine ⟨by simp, by simp [List.count_append], by simp, by simp⟩
    | ok pred =>
      have hloop := runDirs_events_ok args none pred (sortEntries w.walk) stats0
      rcases hrd : runDirs args none pred (sortEntries w.walk) stats0 with ⟨st, evs, err⟩
      rw [hrd] at hloop
      simp only at hloop
      have hwarnNot : Event.warnOldNew ∉ evs := by
        intro hm
        have := hloop Event.warnOldNew hm
        simp [evOk] at this
      have hwaNot : ∀ p m, Event.writeAttempt p m ∉ evs := by
        intro p m hm
        have := hloop (Event.writeAttempt p m) hm
        simp [evOk] at this
      have hsumNot : ∀ a b r, Event.summary a b r ∉ evs := by
        intro a b r hm
        have := hloop (Event.summary a b r) hm
        simp [evOk] at this
      simp only [hrd]
      cases err with
      | some e =>
        simp only
        refine ⟨by simp, ?_, ?_, ?_⟩
        · rcases hgw with hgw | hgw <;> subst hgw <;>
            simp [List.count_append, List.count_eq_zero.mpr hwarnNot]
        · intro p m hm
          rcases List.mem_append.mp hm with h1 | h2
          · rcases List.mem_append.mp h1 with h3 | h4
            · rcases List.mem_append.mp h3 with h5 | h6
              · simp at h5
              · simp at h6
            · rcases hgw with hgw | hgw <;> subst hgw <;> simp at h4
          · exact hwaNot p m h2
        · intro a b r hm
          rcases List.mem_append.mp hm with h1 | h2
          · rcases List.mem_append.mp h1 with h3 | h4
            · rcases List.mem_append.mp h3 with h5 | h6
              · simp at h5
              · simp at h6
            · rcases hgw with hgw | hgw <;> subst hgw <;> simp at h4
          · exact absurd h2 (hsumNot a b r)
      | none =>
        simp only
        refine ⟨by simp, ?_, ?_, ?_⟩
        · rcases hgw with hgw | hgw <;> subst hgw <;>
            split <;>
            simp [List.count_append, List.count_eq_zero.mpr hwarnNot]
        · intro p m hm
          rcases List.mem_append.mp hm with h1 | h2
          · rcases List.mem_append.mp h1 with h3 | h4
            · rcases List.mem_append.mp h3 with h5 | h6
              · rcases List.mem_append.mp h5 with h7 | h8
                · simp at h7
                · rcases hgw with hgw | hgw <;> subst hgw <;> simp at h8
              · exact hwaNot p m h6
            · simp at h4
          · split at h2 <;> simp at h2
        · intro a b r hm
          rcases List.mem_append.mp hm with h1 | h2
          · rcases List.mem_append.mp h1 with h3 | h4
            · rcases List.mem_append.mp h3 with h5 | h6
              · rcases List.mem_append.mp h5 with h7 | h8
                · simp at h7
                · rcases hgw with hgw | hgw <;> subst hgw <;> simp at h8
              · exact absurd h6 (hsumNot a b r)
            · simp at h4
              exact h4.2.2
          · split at h2 <;> simp at h2

/-- Witness for claim C4: a run where the replacement equals the search
string (on a tree with matches) warns exactly once, attempts no write, and
summarises in found-mode. -/
theorem c4_witness :
    Event.warnOldNew ∈ (pymain wMix aSame).events ∧
    (pymain wMix aSame).events.count Event.warnOldNew = 1 ∧
    (∀ p m, Event.writeAttempt p m ∉ (pymain wMix aSame).events) ∧
    (∀ a b r, Event.summary a b r ∈ (pymain wMix aSame).events → r = false) :=
  c4_old_eq_new_search_only wMix aSame rfl rfl

theorem splitSep_ne_nil (sep : Char) : ∀ l : List Char, splitSep sep l ≠ [] := by
  intro l
  cases l with
  | nil => simp [splitSep]
  | cons c s =>
    rcases h : splitSep sep s with _ | ⟨h1, t⟩
    · simp [splitSep, h]
    · simp only [splitSep, h]
      split <;> simp

theorem joinSep_splitSep (sep : Char) : ∀ l : List Char, joinSep sep (splitSep sep l) = l := by
  intro l
  induction l with
  | nil => rfl
  | cons c s ih =>
    rcases h : splitSep sep s with _ | ⟨h1, t⟩
    · exact absurd h (splitSep_ne_nil sep s)
    · rw [h] at ih
      simp only [splitSep, h]
      by_cases hc : c = sep
      · subst hc
        rw [if_pos rfl]
        simp [joinSep, ih]
      · rw [if_neg hc]
        cases t with
        | nil =>
          simp [joinSep] at ih ⊢
          rw [ih]
        | cons t1 tt =>
          simp only [joinSep] at ih ⊢
          rw [List.cons_append, ih]

theorem map_data_map_mk : ∀ A : List (List Char),
    List.map String.data (List.map String.mk A) = A := by
  intro A
  induction A with
  | nil => rfl
  | cons a t ih =>
    simp only [List.map_cons]
    rw [ih]

theorem pathParts_injective : Function.Injective pathParts := by
  intro s t h
  unfold pathParts at h
  by_cases hs : s = ""
  · by_cases ht : t = ""
    · rw [hs, ht]
    · rw [if_pos hs, if_neg ht] at h
      have h2 : splitSep '/' t.toList = [] := List.map_eq_nil_iff.mp h.symm
      exact absurd h2 (splitSep_ne_nil '/' t.toList)
  · by_cases ht : t = ""
    · rw [if_neg hs, if_pos ht] at h
      have h2 : splitSep '/' s.toList = [] := List.map_eq_nil_iff.mp h
      exact absurd h2 (splitSep_ne_nil '/' s.toList)
    · rw [if_neg hs, if_neg ht] at h
      have h2 : splitSep '/' s.toList = splitSep '/' t.toList := by
        have h3 := congrArg (List.map String.data) h
        rwa [map_data_map_mk, map_data_map_mk] at h3
      have h4 : s.toList = t.toList := by
        have h5 := congrArg (joinSep '/') h2
        rwa [joinSep_splitSep, joinSep_splitSep] at h5
      cases s with
      | mk ds =>
        cases t with
        | mk dt => exact congrArg String.mk h4

theorem eq_of_perm_of_sorted_key {α β : Type} [LinearOrder β] (key : α → β) :
    ∀ {l₁ l₂ : List α}, l₁.Perm l₂ →
      l₁.Sorted (fun a b => key a ≤ key b) →
      l₂.Sorted (fun a b => key a ≤ key b) →
      (l₁.map key).Nodup → l₁ = l₂ := by
  intro l₁
  induction l₁ with
  | nil =>
    intro l₂ hp _ _ _
    exact hp.nil_eq
  | cons a t ih =>
    intro l₂ hp hs₁ hs₂ hn
    cases l₂ with
    | nil => exact absurd hp.symm.nil_eq (by simp)
    | cons b t₂ =>
      by_cases hab : a = b
      · subst hab
        have ht : t.Perm t₂ := hp.cons_inv
        have hnd : (t.map key).Nodup := by
          rw [List.map_cons, List.nodup_cons] at hn
          exact hn.2
        rw [ih ht hs₁.of_cons hs₂.of_cons hnd]
      · have ha2 : a ∈ b :: t₂ := hp.subset (List.mem_cons_self a t)
        have hb1 : b ∈ a :: t := hp.symm.subset (List.mem_cons_self b t₂)
        have ha : a ∈ t₂ := by
          rcases List.mem_cons.mp ha2 with h | h
          · exact absurd h hab
          · exact h
        have hb : b ∈ t := by
          rcases List.mem_cons.mp hb1 with h | h
          · exact absurd h.symm hab
          · exact h
        have h1 : key a ≤ key b := (List.sorted_cons.mp hs₁).1 b hb
        have h2 : key b ≤ key a := (List.sorted_cons.mp hs₂).1 a ha
        have hk : key a = key b := le_antisymm h1 h2
        have hmem : key a ∈ t.map key := hk ▸ List.mem_map_of_mem key hb
        rw [List.map_cons, List.nodup_cons] at hn
        exact absurd hmem hn.1

theorem orderedInsert_map_norm (a : DirEntry) :
    ∀ l : List DirEntry,
      (l.map normEntry).orderedInsert entLE (normEntry a) =
        (l.orderedInsert entLE a).map normEntry := by
  intro l
  induction l with
  | nil => rfl
  | cons b t ih =>
    simp only [List.map_cons, List.orderedInsert]
    split <;> rename_i h1 <;> split <;> rename_i h2
    · simp
    · exact absurd h1 h2
    · exact absurd h2 h1
    · simp [ih]

theorem sortEntries_map_norm (l : List DirEntry) :
    sortEntries (l.map normEntry) = (sortEntries l).map normEntry := by
  induction l with
  | nil => rfl
  | cons a t ih =>
    simp only [sortEntries, List.map_cons, List.insertionSort] at ih ⊢
    rw [ih, orderedInsert_map_norm]

theorem sortFiles_idem (l : List FileEntry) :
    sortFiles (sortFiles l) = sortFiles l :=
  List.Sorted.insertionSort_eq (List.sorted_insertionSort fileLE l)

theorem visitOrder_map_norm (l : List DirEntry) :
    visitOrder (l.map normEntry) = visitOrder l := by
  unfold visitOrder
  rw [sortEntries_map_norm, List.map_map]
  congr 1
  apply List.map_congr_left
  intro e _
  simp [normEntry, Function.comp, sortFiles_idem]

/-- Claim C6: the traversal visits directories in sorted order of their
path (lexicographic on the tuple of path components, the `pathlib`
ordering) and, within each directory, files in lexicographically sorted
filename order; consequently two enumerations of the same unmodified tree
(walk entries permuted, file lists within each directory permuted) produce
the identical visitation sequence, independent of the file-system
enumeration order. -/
theorem c6_deterministic_sorted_traversal (l₁ l₂ : List DirEntry)
    (hperm : (l₁.map normEntry).Perm (l₂.map normEntry))
    (hnd : (l₁.map DirEntry.dir).Nodup) :
    visitOrder l₁ = visitOrder l₂ ∧
    ((sortEntries l₁).map fun e => pathParts e.dir).Sorted (· ≤ ·) ∧
    (∀ e ∈ sortEntries l₁,
      ((sortFiles e.files).map FileEntry.name).Sorted (· ≤ ·)) := by
  refine ⟨?_, ?_, ?_⟩
  · have hkey : ∀ l : List DirEntry,
        ((l.map normEntry).map fun e => pathParts e.dir) =
          l.map fun e => pathParts e.dir := by
      intro l
      rw [List.map_map]
      exact List.map_congr_left (fun e _ => rfl)
    have hps : (sortEntries (l₁.map normEntry)).Perm (sortEntries (l₂.map normEntry)) :=
      ((List.perm_insertionSort entLE _).trans hperm).trans
        (List.perm_insertionSort entLE _).symm
    have hs₁ : (sortEntries (l₁.map normEntry)).Sorted
        (fun a b => pathParts a.dir ≤ pathParts b.dir) :=
      List.sorted_insertionSort entLE _
    have hs₂ : (sortEntries (l₂.map normEntry)).Sorted
        (fun a b => pathParts a.dir ≤ pathParts b.dir) :=
      List.sorted_insertionSort entLE _
    have hkl : (l₁.map fun e => pathParts e.dir).Nodup := by
      have h5 : (List.map pathParts (l₁.map DirEntry.dir)).Nodup :=
        hnd.map pathParts_injective
      rwa [List.map_map] at h5
    have hnd' : ((sortEntries (l₁.map normEntry)).map fun e => pathParts e.dir).Nodup := by
      have hp : ((sortEntries (l₁.map normEntry)).map fun e => pathParts e.dir).Perm
          ((l₁.map normEntry).map fun e => pathParts e.dir) :=
        (List.perm_insertionSort entLE _).map _
      rw [hkey l₁] at hp
      exact hp.symm.nodup hkl
    have heq : sortEntries (l₁.map normEntry) = sortEntries (l₂.map normEntry) :=
      eq_of_perm_of_sorted_key (fun e => pathParts e.dir) hps hs₁ hs₂ hnd'
    calc visitOrder l₁ = visitOrder (l₁.map normEntry) := (visitOrder_map_norm l₁).symm
      _ = ((sortEntries (l₁.map normEntry)).map fun e =>
            (sortFiles e.files).map fun f => joinRel e.dir f.name).flatten := rfl
      _ = ((sortEntries (l₂.map normEntry)).map fun e =>
            (sortFiles e.files).map fun f => joinRel e.dir f.name).flatten := by rw [heq]
      _ = visitOrder (l₂.map normEntry) := rfl
      _ = visitOrder l₂ := visitOrder_map_norm l₂
  · exact List.Pairwise.map (fun e : DirEntry => pathParts e.dir) (fun a b h => h)
      (List.sorted_insertionSort entLE l₁)
  · intro e _
    exact List.Pairwise.map FileEntry.name (fun a b h => h)
      (List.sorted_insertionSort fileLE e.files)

/-- Witness for claim C6: two enumerations of the same two-directory tree
yield the identical visitation order, and it is sorted. -/
theorem c6_witness :
    visitOrder walkA = visitOrder walkB ∧
    ((sortEntries walkA).map fun e => pathParts e.dir).Sorted (· ≤ ·) ∧
    (∀ e ∈ sortEntries walkA,
      ((sortFiles e.files).map FileEntry.name).Sorted (· ≤ ·)) :=
  c6_deterministic_sorted_traversal walkA walkB (by decide) (by decide)

/-- Claim C8, counterexample: with a valid working directory and a valid
root directory, a parse failure of the found `.gitignore` aborts the run
with an uncaught exception (nonzero exit status), so the process fails to
exit 0 in a case outside the two fatal preconditions of the claim. -/
theorem c8_counterexample :
    wParseFail.cwdValid = true ∧ wParseFail.rootIsDir = true ∧
    (pymain wParseFail aPlain).outcome =
      Outcome.crashed "ValueError: malformed pattern" ∧
    (pymain wParseFail aPlain).outcome ≠ Outcome.completed := by
  decide

/-- Claim C8, amended: the process takes a `sys.exit` with a message
exactly on the two precondition failures — invalid working directory
(empty trace, nothing read) or root not a directory (trace holds at most
the old-equals-new warning) — and, when both preconditions hold, the
ignore predicate loads successfully, and no suffix filter is configured,
it completes with exit status 0 regardless of the per-file failure count.
(Uncaught exceptions — an ignore-file parse failure or the suffix-filter
attribute error — additionally abort with nonzero status, which the
original claim did not account for.) -/
theorem c8_exit_behavior (w : World) (args : Args) :
    (w.cwdValid = false →
      pymain w args = ⟨Outcome.exited (cwdInvalidMsg w.cwd), stats0, []⟩) ∧
    (w.cwdValid = true → w.rootIsDir = false →
      (pymain w args).outcome = Outcome.exited (notADirMsg args.dir) ∧
      (pymain w args).events =
        (if args.new = some args.old then [Event.warnOldNew] else [])) ∧
    (∀ (gw : List Event) (pred : String → Bool),
      w.cwdValid = true → w.rootIsDir = true →
      gitignore w.gitEnv = (gw, Except.ok pred) → args.file_type = "" →
      (pymain w args).outcome = Outcome.completed) := by
  refine ⟨?_, ?_, ?_⟩
  · intro h
    simp [pymain, h]
  · intro h1 h2
    constructor
    · simp [pymain, h1, h2]
    · simp [pymain, h1, h2]
  · intro gw pred h1 h2 h3 h4
    exact (pymain_completed w args gw pred h1 h2 h3 h4).1

/-- Witness for the amended claim C8: an invalid working directory exits
with the fatal message and an empty trace, while a valid run (containing a
failing file) completes. -/
theorem c8_witness :
    pymain wBadCwd aPlain = ⟨Outcome.exited (cwdInvalidMsg "/gone"), stats0, []⟩ ∧
    (pymain wMix aPlain).outcome = Outcome.completed :=
  ⟨(c8_exit_behavior wBadCwd aPlain).1 rfl,
   (c8_exit_behavior wMix aPlain).2.2 [Event.importWarn] (fun _ => false)
     rfl rfl rfl rfl⟩
